import Mathlib

/-!
# Verification of the `does_impl` trait-expression evaluator

This development shallowly embeds the `does_impl!` / `_does_impl!` declarative
token-rewriting grammar of `src/lib.rs` (lines 459-674) and the single-trait
resolution mechanism of its ONE rule (lines 472-492), and proves the
documented properties of the expression language.

Modelling choices (all traced to the source):

* A Rust token tree is modelled by `Tok`.  Parenthesized groups are a single
  constructor `Tok.group` holding the inner token list, exactly as Rust
  tokenization delivers a `tt` for a parenthesized group (so unbalanced
  parentheses are unrepresentable, as they are rejected by Rust's lexer
  before macro expansion).
* A trait leaf (`$trait:path` in the ONE/OR rules, and the
  `$t1:ident < lifetimes, generics >` shapes of the AND/XOR rules,
  lines 557-673) is modelled by `Leaf`: an identifier plus lifetime
  arguments followed by generic-type arguments.  Generic-type arguments are
  modelled as identifiers (the claims only involve such leaves); multi-segment
  paths are not modelled, which only narrows the leaf alphabet, not the
  rewriting logic.
* One macro-expansion step is `evalStep`, written to follow the rule list of
  `_does_impl!` one arm per (group of) source rule(s); full evaluation is
  `evalFuel`/`_does_impl`.  `env : Leaf → Bool` abstracts the single-trait
  resolver: for each leaf, whether the type is known to implement it at the
  expansion site.
* A key fact of Rust macro expansion reflected in the model: a macro call in
  expression position expands to a single expression node (and every
  binary-operator rule additionally brace-wraps its output, `=> {{ ... }}`),
  so each recursive `_does_impl!` result combines atomically with `&`, `|`,
  `^` — the grouping is decided by the grammar rules, not by the host
  expression parser.
-/

namespace DoesImpl

/-- A Rust token tree, restricted to the alphabet used by the
`_does_impl!` grammar: identifiers, lifetimes, `!`, `&`, `|`, `^`,
`<`, `>`, `,`, and parenthesized groups. -/
inductive Tok where
  | ident (s : String)
  | lifetime (s : String)
  | bang
  | amp
  | pipe
  | caret
  | lt
  | gt
  | comma
  | group (ts : List Tok)

/-- A trait leaf: identifier with lifetime arguments and generic-type
arguments (source: `$trait:path` in the ONE rule, line 472, and the
`$t1:ident < $($t1_lifetime:lifetime),+ $(, $t1_generic:ty)* $(,)? >` /
`$t1:ident < $($t1_generic:ty),+ $(,)? >` operand shapes of the AND/XOR
rules, lines 570-673).  The grammar puts lifetimes before types, which the
two separate lists record structurally. -/
structure Leaf where
  name : String
  lifes : List String
  tys : List String
deriving Repr, DecidableEq

/-- The three binary operators of the expression language. -/
inductive Op where
  | and
  | or
  | xor
deriving Repr, DecidableEq

/-- The token an operator is written as: `&`, `|`, `^`. -/
def opTok : Op → Tok
  | .and => .amp
  | .or => .pipe
  | .xor => .caret

/-- The boolean operation the macro emits for an operator.  The expansion
uses Rust's `&`, `|`, `^` on `bool` (no short-circuiting), i.e. plain
two-valued conjunction, disjunction and exclusive or. -/
def opFn : Op → Bool → Bool → Bool
  | .and => fun a b => a && b
  | .or => fun a b => a || b
  | .xor => fun a b => Bool.xor a b

/-- Generic-argument list parsing, continued after the leading lifetimes:
`$($t1_generic:ty),+ $(,)? >` — one or more type arguments, comma
separated, optional trailing comma, closing `>`.  Returns the type
arguments and the tokens after the `>`. -/
def parseTyArgs : List Tok → Option (List String × List Tok)
  | .ident s :: .gt :: rest => some ([s], rest)
  | .ident s :: .comma :: .gt :: rest => some ([s], rest)
  | .ident s :: .comma :: ts =>
      (parseTyArgs ts).map (fun p => (s :: p.1, p.2))
  | _ => none

/-- Generic-argument list parsing after `<`:
`$($t1_lifetime:lifetime),+ $(, $t1_generic:ty)* $(,)? >` or
`$($t1_generic:ty),+ $(,)? >` — lifetimes (if any) first, then type
arguments, at least one argument in total, optional trailing comma,
closing `>`.  Lifetimes after a type argument do not parse, as in the
source grammar (and in Rust's own path grammar). -/
def parseArgs : List Tok → Option (List String × List String × List Tok)
  | .lifetime s :: .gt :: rest => some ([s], [], rest)
  | .lifetime s :: .comma :: .gt :: rest => some ([s], [], rest)
  | .lifetime s :: .comma :: ts =>
      (parseArgs ts).map (fun p => (s :: p.1, p.2.1, p.2.2))
  | .ident s :: .gt :: rest => some ([], [s], rest)
  | .ident s :: .comma :: .gt :: rest => some ([], [s], rest)
  | .ident s :: .comma :: ts =>
      (parseTyArgs ts).map (fun p => ([], s :: p.1, p.2))
  | _ => none

/-- Leaf recognition at the front of a token list: a bare identifier, or an
identifier followed by a `< ... >` argument list.  This is the common
recognizer behind `$trait:path` (ONE/OR rules) and the explicit
`$t1:ident`/`$t1:ident < ... >` shapes (AND/XOR rules).  Like Rust's
committed fragment parsing, an identifier followed by `<` must complete a
well-formed argument list: `A < B` with no closing `>` fails the whole
match. -/
def parseLeaf : List Tok → Option (Leaf × List Tok)
  | .ident s :: .lt :: ts =>
      (parseArgs ts).map (fun p => (⟨s, p.1, p.2.1⟩, p.2.2))
  | .ident s :: ts => some (⟨s, [], []⟩, ts)
  | _ => none

/-- Number of leading `!` tokens.  The rules all begin with a `$(! !)*`
matcher and the NOT variants with one further `!`, so matching strips the
leading bangs and the surviving negation is their parity. -/
def countBangs : List Tok → Nat
  | .bang :: ts => countBangs ts + 1
  | _ => 0

/-- The token list with its leading `!` tokens removed. -/
def dropBangs : List Tok → List Tok
  | .bang :: ts => dropBangs ts
  | ts => ts

/-- Total number of tokens in a token list, counting the contents of
groups; the recursion measure of the rewriter (each expansion step works on
strictly fewer tokens). -/
def listSize : List Tok → Nat
  | [] => 0
  | .group g :: ts => listSize g + listSize ts + 2
  | _ :: ts => listSize ts + 1

/-- One rewriting step of `_does_impl!` after the leading bangs have been
stripped into the parity `neg`.  `rec` stands for the recursive
`_does_impl!` invocations the rule's right-hand side emits.  The arms
follow the source rule list (all distinct arms are mutually exclusive, so
the source's textual order is irrelevant to the result):

* `some (l, [])` — ONE (line 472) and NOT (line 495): the whole input is
  `$(! !)* !? $trait:path`.
* `some (l, .pipe :: r2)` — OR / OR+NOT (lines 544-555):
  `$(! !)* !? $t1:path | $($t2:tt)+`.
* `some (l, .amp :: r2)` — the six AND / AND+NOT rules (lines 557-614),
  one per leaf shape (bare ident / with lifetimes / with generics).
* `some (l, .caret :: r2)` — the six XOR / XOR+NOT rules (lines 616-673).
* `none, [.group g]` — PAREN / PAREN+NOT (lines 499-506).
* `none, .group g :: op :: r2` — PAREN+OR/AND/XOR(+NOT) (lines 507-542).
* anything else matches no rule: expansion fails (`none`).

In the OR/AND/XOR arms an empty `r2` makes `rec r2 = none`, which agrees
with the source, where `$($t2:tt)+` requires at least one token and a
trailing operator therefore matches no rule at all.  Likewise the PAREN
rules require a nonempty group, and an empty group makes `rec g = none`. -/
def evalStep (env : Leaf → Bool) (rec : List Tok → Option Bool)
    (neg : Bool) (r : List Tok) : Option Bool :=
  match parseLeaf r, r with
  | some (l, []), _ => some (Bool.xor neg (env l))
  | some (l, .pipe :: r2), _ =>
      (rec r2).map (fun b => (Bool.xor neg (env l) || b))
  | some (l, .amp :: r2), _ =>
      (rec r2).map (fun b => (Bool.xor neg (env l) && b))
  | some (l, .caret :: r2), _ =>
      (rec r2).map (fun b => Bool.xor (Bool.xor neg (env l)) b)
  | none, [.group g] => (rec g).map (fun a => Bool.xor neg a)
  | none, .group g :: .pipe :: r2 =>
      (rec g).bind (fun a => (rec r2).map (fun b => (Bool.xor neg a || b)))
  | none, .group g :: .amp :: r2 =>
      (rec g).bind (fun a => (rec r2).map (fun b => (Bool.xor neg a && b)))
  | none, .group g :: .caret :: r2 =>
      (rec g).bind (fun a => (rec r2).map (fun b => Bool.xor (Bool.xor neg a) b))
  | _, _ => none

/-- Fuel-indexed evaluator: each recursive `_does_impl!` expansion consumes
one unit of fuel.  Every recursive call of `evalStep` is on a strictly
smaller token list, so any fuel exceeding the total token-tree size is
enough (`evalFuel_congr` below). -/
def evalFuel (env : Leaf → Bool) : Nat → List Tok → Option Bool
  | 0, _ => none
  | f + 1, ts =>
      evalStep env (evalFuel env f)
        (decide (countBangs ts % 2 = 1)) (dropBangs ts)

/-- The `_does_impl!` rewriter (lines 469-674): full evaluation of a trait
expression, `none` when no grammar rule applies somewhere (a compile-time
failure in the source). -/
def _does_impl (env : Leaf → Bool) (ts : List Tok) : Option Bool :=
  evalFuel env (listSize ts + 1) ts

/-- The public `does_impl!` entry point (lines 459-464):
`($type:ty: $($trait_expr:tt)+)` requires a nonempty expression and hands
it to `_does_impl!` unchanged. -/
def does_impl (env : Leaf → Bool) (ts : List Tok) : Option Bool :=
  match ts with
  | [] => none
  | t :: ts' => _does_impl env (t :: ts')

/-- Comma-separated rendering of an argument list (no trailing comma). -/
def sepToks : List Tok → List Tok
  | [] => []
  | t :: ts =>
      t :: (match ts with
            | [] => []
            | _ :: _ => Tok.comma :: sepToks ts)

/-- Closing of an argument list: optional trailing comma, then `>`,
then the continuation `rest`. -/
def closeToks (tc : Bool) (rest : List Tok) : List Tok :=
  if tc then Tok.comma :: Tok.gt :: rest else Tok.gt :: rest

/-- The token rendering of a leaf: a bare identifier when there are no
arguments, otherwise `name < args >` with an optional trailing comma
(`tc`).  This is the concrete syntax accepted for leaves by every operator
rule of the grammar. -/
def leafToksT (l : Leaf) (tc : Bool) : List Tok :=
  Tok.ident l.name ::
    (match l.lifes, l.tys with
     | [], [] => []
     | ls, tys =>
         Tok.lt ::
           (sepToks (ls.map Tok.lifetime ++ tys.map Tok.ident) ++ closeToks tc []))

/-- `True`/`False` marker pair with its `value` bridge.

Modelled from the spec: the repository declares `#[path = "bool.rs"] pub mod
_bool;` (line 304) but `src/bool.rs` is not under `src/`; the spec describes
it as "two zero-sized marker types, each carrying an associated constant
whose value is the corresponding boolean" exposing "a single conversion from
each marker to the literal boolean it represents", compile-time evaluable.
The pair is modelled as one two-constructor type so that the selected marker
can be spoken about uniformly. -/
inductive TBool where
  | True : TBool
  | False : TBool
deriving Repr, DecidableEq

/-- The conversion from a marker to the boolean it represents (the
`.value()` call on line 491). -/
def TBool.value : TBool → Bool
  | .True => true
  | .False => false

/-- A type as seen by one macro invocation: whether it is statically sized,
and which trait bounds it is known (at the expansion site) to satisfy.
`impls` answering `false` covers both genuine non-implementation and the
documented conservative false negative in generic contexts. -/
structure RustTy where
  sized : Bool
  impls : Leaf → Bool

/-- Applicability of the fallback impl `impl<T: ?Sized> DoesNotImpl for T`
(line 480): unconditional — in particular it places no `Sized` bound, so it
applies to unsized types too. -/
def DoesNotImplApplicable (_t : RustTy) : Bool := true

/-- Applicability of the gated inherent impl
`impl<T: ?Sized + $trait> Wrapper<T>` (line 487): exactly the trait bound,
again with no `Sized` requirement. -/
def WrapperInherentApplicable (t : RustTy) (tr : Leaf) : Bool := t.impls tr

/-- Resolution of `<Wrapper<$type>>::DOES_IMPL` (line 491): Rust prefers the
inherent associated constant (`True`, line 488) when its impl applies, and
otherwise falls back to the trait's default associated constant (`False`,
line 478); were neither impl applicable the lookup would be ill-formed
(`none`), which never happens because the fallback is unconditional. -/
def wrapperDOES_IMPL (t : RustTy) (tr : Leaf) : Option TBool :=
  if WrapperInherentApplicable t tr then some TBool.True
  else if DoesNotImplApplicable t then some TBool.False
  else none

/-- The complete ONE rule (lines 472-492) for one type and one trait leaf:
marker resolution followed by the `.value()` bridge. -/
def oneRule (t : RustTy) (tr : Leaf) : Option Bool :=
  (wrapperDOES_IMPL t tr).map TBool.value

/-- The leaf environment a concrete type induces, as used to instantiate
the rewriter: the ONE-rule answer for each leaf. -/
def envOf (t : RustTy) : Leaf → Bool :=
  fun l => (oneRule t l).getD false

/-- Leaf environment for the precedence counterexample: the type implements
every trait except `A`. -/
def envC1 : Leaf → Bool := fun l => l.name != "A"

/-- Token stream of the expression `A & B | C` (no parentheses). -/
def tsC1 : List Tok :=
  [Tok.ident "A", Tok.amp, Tok.ident "B", Tok.pipe, Tok.ident "C"]

/-! ## Size bookkeeping: every recursive expansion works on fewer tokens -/

theorem listSize_nil : listSize [] = 0 := by simp [listSize]

theorem listSize_ident_cons (s : String) (ts : List Tok) :
    listSize (Tok.ident s :: ts) = listSize ts + 1 := by simp [listSize]

theorem listSize_lifetime_cons (s : String) (ts : List Tok) :
    listSize (Tok.lifetime s :: ts) = listSize ts + 1 := by simp [listSize]

theorem listSize_bang_cons (ts : List Tok) :
    listSize (Tok.bang :: ts) = listSize ts + 1 := by simp [listSize]

theorem listSize_amp_cons (ts : List Tok) :
    listSize (Tok.amp :: ts) = listSize ts + 1 := by simp [listSize]

theorem listSize_pipe_cons (ts : List Tok) :
    listSize (Tok.pipe :: ts) = listSize ts + 1 := by simp [listSize]

theorem listSize_caret_cons (ts : List Tok) :
    listSize (Tok.caret :: ts) = listSize ts + 1 := by simp [listSize]

theorem listSize_lt_cons (ts : List Tok) :
    listSize (Tok.lt :: ts) = listSize ts + 1 := by simp [listSize]

theorem listSize_gt_cons (ts : List Tok) :
    listSize (Tok.gt :: ts) = listSize ts + 1 := by simp [listSize]

theorem listSize_comma_cons (ts : List Tok) :
    listSize (Tok.comma :: ts) = listSize ts + 1 := by simp [listSize]

theorem listSize_group_cons (g ts : List Tok) :
    listSize (Tok.group g :: ts) = listSize g + listSize ts + 2 := by
  simp [listSize]

theorem parseTyArgs_size : ∀ (v : List Tok) (p : List String × List Tok),
    parseTyArgs v = some p → listSize p.2 < listSize v := by
  intro v
  induction v using parseTyArgs.induct with
  | case1 s rest =>
      intro p h
      simp only [parseTyArgs, Option.some.injEq] at h
      subst h
      simp [listSize]
      omega
  | case2 s rest =>
      intro p h
      simp only [parseTyArgs, Option.some.injEq] at h
      subst h
      simp [listSize]
      omega
  | case3 s ts hne ih =>
      intro p h
      simp only [parseTyArgs] at h
      rcases Option.map_eq_some'.mp h with ⟨q, hq, rfl⟩
      have := ih q hq
      simp [listSize]
      omega
  | case4 t h1 h2 h3 =>
      intro p h
      unfold parseTyArgs at h
      split at h
      · exact (h1 _ _ rfl).elim
      · exact (h2 _ _ rfl).elim
      · exact (h3 _ _ rfl).elim
      · exact Option.noConfusion h

theorem parseArgs_size : ∀ (v : List Tok) (p : List String × List String × List Tok),
    parseArgs v = some p → listSize p.2.2 < listSize v := by
  intro v
  induction v using parseArgs.induct with
  | case1 s rest =>
      intro p h
      simp only [parseArgs, Option.some.injEq] at h
      subst h
      simp [listSize]
      omega
  | case2 s rest =>
      intro p h
      simp only [parseArgs, Option.some.injEq] at h
      subst h
      simp [listSize]
      omega
  | case3 s ts hne ih =>
      intro p h
      simp only [parseArgs] at h
      rcases Option.map_eq_some'.mp h with ⟨q, hq, rfl⟩
      have := ih q hq
      simp [listSize]
      omega
  | case4 s rest =>
      intro p h
      simp only [parseArgs, Option.some.injEq] at h
      subst h
      simp [listSize]
      omega
  | case5 s rest =>
      intro p h
      simp only [parseArgs, Option.some.injEq] at h
      subst h
      simp [listSize]
      omega
  | case6 s ts ih =>
      intro p h
      simp only [parseArgs] at h
      rcases Option.map_eq_some'.mp h with ⟨q, hq, rfl⟩
      have := parseTyArgs_size ts q hq
      simp [listSize]
      omega
  | case7 t h1 h2 h3 h4 h5 h6 =>
      intro p h
      unfold parseArgs at h
      split at h
      · exact (h1 _ _ rfl).elim
      · exact (h2 _ _ rfl).elim
      · exact (h3 _ _ rfl).elim
      · exact (h4 _ _ rfl).elim
      · exact (h5 _ _ rfl).elim
      · exact (h6 _ _ rfl).elim
      · exact Option.noConfusion h

theorem parseLeaf_size (v : List Tok) (p : Leaf × List Tok)
    (h : parseLeaf v = some p) : listSize p.2 < listSize v := by
  unfold parseLeaf at h
  split at h
  · rcases Option.map_eq_some'.mp h with ⟨q, hq, rfl⟩
    have := parseArgs_size _ q hq
    simp [listSize]
    omega
  · simp only [Option.some.injEq] at h
    subst h
    simp [listSize]
  · exact Option.noConfusion h

theorem dropBangs_size (ts : List Tok) : listSize (dropBangs ts) ≤ listSize ts := by
  induction ts with
  | nil => simp [dropBangs]
  | cons t ts ih =>
      cases t
      case bang =>
        simp only [dropBangs, listSize]
        omega
      all_goals simp [dropBangs, listSize]

/-! ## Unfolding the evaluator one expansion step at a time -/

theorem evalStep_congr (env : Leaf → Bool) (rec1 rec2 : List Tok → Option Bool)
    (neg : Bool) (r : List Tok)
    (h : ∀ u, listSize u < listSize r → rec1 u = rec2 u) :
    evalStep env rec1 neg r = evalStep env rec2 neg r := by
  unfold evalStep
  split
  · rfl
  · rename_i l r2 hp
    rw [h r2 (by have := parseLeaf_size _ _ hp; simp [listSize] at this; omega)]
  · rename_i l r2 hp
    rw [h r2 (by have := parseLeaf_size _ _ hp; simp [listSize] at this; omega)]
  · rename_i l r2 hp
    rw [h r2 (by have := parseLeaf_size _ _ hp; simp [listSize] at this; omega)]
  · rename_i g hp
    rw [h g (by simp [listSize])]
  · rename_i g r2 hp
    rw [h g (by simp [listSize]; omega), h r2 (by simp [listSize]; omega)]
  · rename_i g r2 hp
    rw [h g (by simp [listSize]; omega), h r2 (by simp [listSize]; omega)]
  · rename_i g r2 hp
    rw [h g (by simp [listSize]; omega), h r2 (by simp [listSize]; omega)]
  · rfl

theorem evalFuel_congr (env : Leaf → Bool) :
    ∀ (f g : Nat) (ts : List Tok), listSize ts < f → listSize ts < g →
      evalFuel env f ts = evalFuel env g ts := by
  intro f
  induction f with
  | zero =>
      intro g ts hf hg
      exact absurd hf (Nat.not_lt_zero _)
  | succ f ih =>
      intro g ts hf hg
      cases g with
      | zero => exact absurd hg (Nat.not_lt_zero _)
      | succ g =>
          simp only [evalFuel]
          apply evalStep_congr
          intro u hu
          have h1 : listSize (dropBangs ts) ≤ listSize ts := dropBangs_size ts
          exact ih g u (by omega) (by omega)

theorem _does_impl_unfold (env : Leaf → Bool) (ts : List Tok) :
    _does_impl env ts
      = evalStep env (_does_impl env)
          (decide (countBangs ts % 2 = 1)) (dropBangs ts) := by
  unfold _does_impl
  simp only [evalFuel]
  apply evalStep_congr
  intro u hu
  have h1 : listSize (dropBangs ts) ≤ listSize ts := dropBangs_size ts
  exact evalFuel_congr env (listSize ts) (listSize u + 1) u (by omega) (by omega)

/-! ## The rendered leaf syntax is recognized by the leaf parser -/

theorem closeToks_append (tc : Bool) (rest : List Tok) :
    closeToks tc [] ++ rest = closeToks tc rest := by
  cases tc <;> simp [closeToks]

theorem parseTyArgs_build :
    ∀ (tys : List String) (t : String) (tc : Bool) (rest : List Tok),
      parseTyArgs (sepToks ((t :: tys).map Tok.ident) ++ closeToks tc rest)
        = some (t :: tys, rest) := by
  intro tys
  induction tys with
  | nil =>
      intro t tc rest
      cases tc <;> simp [sepToks, closeToks, parseTyArgs]
  | cons t2 tys ih =>
      intro t tc rest
      simp only [List.map_cons, sepToks, List.cons_append, List.append_assoc] at ih ⊢
      simp [parseTyArgs, ih t2 tc rest]

theorem parseArgs_build_ty :
    ∀ (tys : List String) (t : String) (tc : Bool) (rest : List Tok),
      parseArgs (sepToks ((t :: tys).map Tok.ident) ++ closeToks tc rest)
        = some ([], t :: tys, rest) := by
  intro tys t tc rest
  cases tys with
  | nil => cases tc <;> simp [sepToks, closeToks, parseArgs]
  | cons t2 tys =>
      have h := parseTyArgs_build tys t2 tc rest
      simp only [List.map_cons, sepToks, List.cons_append, List.append_assoc] at h ⊢
      simp [parseArgs, h]

theorem parseArgs_build_life :
    ∀ (ls : List String) (s : String) (tys : List String) (tc : Bool) (rest : List Tok),
      parseArgs (sepToks ((s :: ls).map Tok.lifetime ++ tys.map Tok.ident) ++ closeToks tc rest)
        = some (s :: ls, tys, rest) := by
  intro ls
  induction ls with
  | nil =>
      intro s tys tc rest
      cases tys with
      | nil => cases tc <;> simp [sepToks, closeToks, parseArgs]
      | cons t tys =>
          have h := parseArgs_build_ty tys t tc rest
          simp only [List.map_cons, List.map_nil, List.nil_append, sepToks,
            List.cons_append, List.append_assoc] at h ⊢
          simp [parseArgs, h]
  | cons s2 ls ih =>
      intro s tys tc rest
      have h := ih s2 tys tc rest
      simp only [List.map_cons, sepToks, List.cons_append, List.append_assoc,
        List.append_eq] at h ⊢
      simp [parseArgs, h]

theorem parseLeaf_build (l : Leaf) (tc : Bool) (rest : List Tok)
    (hrest : ∀ ts, rest ≠ Tok.lt :: ts) :
    parseLeaf (leafToksT l tc ++ rest) = some (l, rest) := by
  rcases l with ⟨name, lifes, tys⟩
  rcases lifes with _ | ⟨l0, ls⟩
  · rcases tys with _ | ⟨t0, ts0⟩
    · rcases rest with _ | ⟨r0, rest'⟩
      · simp [leafToksT, parseLeaf]
      · cases r0
        case lt => exact (hrest rest' rfl).elim
        all_goals simp [leafToksT, parseLeaf]
    · have h := parseArgs_build_ty ts0 t0 tc rest
      simp only [List.map_cons] at h
      simp only [leafToksT, List.cons_append, List.append_assoc, closeToks_append]
      simp [parseLeaf, h]
  · have h := parseArgs_build_life ls l0 tys tc rest
    simp only [List.map_cons, List.cons_append] at h
    simp only [leafToksT, List.cons_append, List.append_assoc, closeToks_append]
    simp [parseLeaf, h]

/-! ## Evaluation of the individual grammar shapes -/

theorem countBangs_leafToksT (l : Leaf) (tc : Bool) (R : List Tok) :
    countBangs (leafToksT l tc ++ R) = 0 := by
  simp [leafToksT, countBangs]

theorem dropBangs_leafToksT (l : Leaf) (tc : Bool) (R : List Tok) :
    dropBangs (leafToksT l tc ++ R) = leafToksT l tc ++ R := by
  simp [leafToksT, dropBangs]

theorem countBangs_group (g ts : List Tok) :
    countBangs (Tok.group g :: ts) = 0 := rfl

theorem dropBangs_group (g ts : List Tok) :
    dropBangs (Tok.group g :: ts) = Tok.group g :: ts := rfl

theorem countBangs_bang (ts : List Tok) :
    countBangs (Tok.bang :: ts) = countBangs ts + 1 := rfl

theorem dropBangs_bang (ts : List Tok) :
    dropBangs (Tok.bang :: ts) = dropBangs ts := rfl

theorem parseLeaf_group (g ts : List Tok) :
    parseLeaf (Tok.group g :: ts) = none := rfl

theorem parseLeaf_nil : parseLeaf ([] : List Tok) = none := rfl

/-- ONE (line 472): a lone trait leaf evaluates to its single-trait
answer. -/
theorem eval_leaf (env : Leaf → Bool) (l : Leaf) (tc : Bool) :
    _does_impl env (leafToksT l tc) = some (env l) := by
  have hp := parseLeaf_build l tc [] (fun ts h => List.noConfusion h)
  rw [List.append_nil] at hp
  rw [_does_impl_unfold]
  rw [show countBangs (leafToksT l tc) = 0 by
        simpa using countBangs_leafToksT l tc []]
  rw [show dropBangs (leafToksT l tc) = leafToksT l tc by
        simpa using dropBangs_leafToksT l tc []]
  simp [evalStep, hp]

/-- NOT (line 495): a negated lone trait leaf. -/
theorem eval_bang_leaf (env : Leaf → Bool) (l : Leaf) (tc : Bool) :
    _does_impl env (Tok.bang :: leafToksT l tc) = some (!(env l)) := by
  have hp := parseLeaf_build l tc [] (fun ts h => List.noConfusion h)
  rw [List.append_nil] at hp
  rw [_does_impl_unfold]
  rw [countBangs_bang]
  rw [show countBangs (leafToksT l tc) = 0 by
        simpa using countBangs_leafToksT l tc []]
  rw [dropBangs_bang]
  rw [show dropBangs (leafToksT l tc) = leafToksT l tc by
        simpa using dropBangs_leafToksT l tc []]
  simp [evalStep, hp]

/-- OR/AND/XOR (lines 544-673): a leading leaf followed by an operator
combines its answer with the evaluation of the whole remaining tail. -/
theorem eval_leaf_op (env : Leaf → Bool) (l : Leaf) (tc : Bool) (o : Op)
    (R : List Tok) :
    _does_impl env (leafToksT l tc ++ opTok o :: R)
      = Option.map (fun b => opFn o (env l) b) (_does_impl env R) := by
  have hp := parseLeaf_build l tc (opTok o :: R)
    (by cases o <;> intro ts h <;> simp [opTok] at h)
  rw [_does_impl_unfold, countBangs_leafToksT, dropBangs_leafToksT]
  cases o <;> simp only [opTok] at hp ⊢ <;> simp [evalStep, hp, opFn]

/-- OR+NOT/AND+NOT/XOR+NOT (lines 550-555, 563-568, 581-591, 604-614,
622-627, 640-650, 663-673): a negated leading leaf followed by an
operator; the negation applies to the leaf only. -/
theorem eval_bang_leaf_op (env : Leaf → Bool) (l : Leaf) (tc : Bool) (o : Op)
    (R : List Tok) :
    _does_impl env (Tok.bang :: (leafToksT l tc ++ opTok o :: R))
      = Option.map (fun b => opFn o (!(env l)) b) (_does_impl env R) := by
  have hp := parseLeaf_build l tc (opTok o :: R)
    (by cases o <;> intro ts h <;> simp [opTok] at h)
  rw [_does_impl_unfold, countBangs_bang, countBangs_leafToksT,
    dropBangs_bang, dropBangs_leafToksT]
  cases o <;> simp only [opTok] at hp ⊢ <;> simp [evalStep, hp, opFn]

/-- PAREN (line 500): a parenthesized expression evaluates to the
evaluation of its contents. -/
theorem eval_group (env : Leaf → Bool) (g : List Tok) :
    _does_impl env [Tok.group g] = _does_impl env g := by
  rw [_does_impl_unfold, countBangs_group, dropBangs_group]
  simp [evalStep, parseLeaf_group]

/-- PAREN+NOT (line 504): a negated parenthesized expression. -/
theorem eval_bang_group (env : Leaf → Bool) (g : List Tok) :
    _does_impl env [Tok.bang, Tok.group g]
      = Option.map (fun b => !b) (_does_impl env g) := by
  rw [_does_impl_unfold]
  rw [show countBangs [Tok.bang, Tok.group g] = 1 from rfl]
  rw [show dropBangs [Tok.bang, Tok.group g] = [Tok.group g] from rfl]
  simp [evalStep, parseLeaf_group]

/-- PAREN+OR/AND/XOR (lines 507-542): a parenthesized left operand
followed by an operator combines its evaluation with the evaluation of the
whole remaining tail. -/
theorem eval_group_op (env : Leaf → Bool) (g : List Tok) (o : Op)
    (R : List Tok) :
    _does_impl env (Tok.group g :: opTok o :: R)
      = (_does_impl env g).bind
          (fun a => Option.map (fun b => opFn o a b) (_does_impl env R)) := by
  rw [_does_impl_unfold, countBangs_group, dropBangs_group]
  cases o <;> simp [evalStep, parseLeaf_group, opTok, opFn]

/-- Evaluation ignores a leading `!!` pair everywhere (the `$(! !)*`
matchers at lines 472, 495, 500, 504, 508, 514, 520, 526, 532, 538, 545,
551, 558, 564, 572, 583, 595, 606, 617, 623, 631, 642, 654, 665). -/
theorem eval_double_bang (env : Leaf → Bool) (ts : List Tok) :
    _does_impl env (Tok.bang :: Tok.bang :: ts) = _does_impl env ts := by
  rw [_does_impl_unfold, _does_impl_unfold env ts]
  rw [countBangs_bang, countBangs_bang, dropBangs_bang, dropBangs_bang]
  have hmod : (countBangs ts + 1 + 1) % 2 = countBangs ts % 2 := by omega
  rw [hmod]

/-- Evaluation ignores any even number of leading `!` tokens. -/
theorem eval_replicate_bang (env : Leaf → Bool) :
    ∀ (n : Nat) (ts : List Tok),
      _does_impl env (List.replicate (2 * n) Tok.bang ++ ts)
        = _does_impl env ts := by
  intro n
  induction n with
  | zero => intro ts; simp
  | succ n ih =>
      intro ts
      rw [show 2 * (n + 1) = 2 * n + 1 + 1 by ring, List.replicate_succ,
        List.replicate_succ, List.cons_append, List.cons_append,
        eval_double_bang, ih]

/-- The empty expression matches no rule. -/
theorem eval_nil (env : Leaf → Bool) : _does_impl env [] = none := by
  rw [_does_impl_unfold]
  rw [show countBangs [] = 0 from rfl, show dropBangs [] = [] from rfl]
  simp [evalStep, parseLeaf_nil]

/-! ## The claims -/

/-- C1: the claim (and the crate documentation, lines 142-155: "Trait
operations abide by Rust's expression precedence") demands AND > OR
precedence, so `A & B | C` should mean `(a && b) || c`.  The code instead
matches the AND rule first with `$t2 = B | C` (lines 557-562), and the
recursive expansion result is a single expression node, so the value is
right-nested `a && (b || c)`.  With a type implementing `C` but not `A`
(environment `envC1`), the expansion gives `false` while the documented
precedence reading gives `true`: the code contradicts its own
documentation. -/
theorem c1_and_or_precedence_code_bug :
    does_impl envC1 tsC1 = some false ∧
    ((envC1 ⟨"A", [], []⟩ && envC1 ⟨"B", [], []⟩) || envC1 ⟨"C", [], []⟩)
      = true := by
  constructor
  · show _does_impl envC1 tsC1 = some false
    have h1 : tsC1
        = leafToksT ⟨"A", [], []⟩ false ++ opTok Op.and ::
            (leafToksT ⟨"B", [], []⟩ false ++ opTok Op.or ::
              leafToksT ⟨"C", [], []⟩ false) := rfl
    rw [h1, eval_leaf_op, eval_leaf_op, eval_leaf]
    decide
  · decide

/-- C2: when the expression starts with a non-parenthesized leaf followed
by a binary operator, the whole remainder is evaluated as one
sub-expression, giving right-nested grouping; in particular
`A & B | C` evaluates as `a && (b || c)`. -/
theorem c2_leading_leaf_right_nested :
    ∀ (env : Leaf → Bool) (l : Leaf) (tc : Bool) (o : Op) (R : List Tok)
      (A B C : Leaf),
      _does_impl env (leafToksT l tc ++ opTok o :: R)
        = Option.map (fun b => opFn o (env l) b) (_does_impl env R)
      ∧ _does_impl env (leafToksT A false ++ Tok.amp ::
            (leafToksT B false ++ Tok.pipe :: leafToksT C false))
          = some (env A && (env B || env C)) := by
  intro env l tc o R A B C
  refine ⟨eval_leaf_op env l tc o R, ?_⟩
  show _does_impl env (leafToksT A false ++ opTok Op.and ::
      (leafToksT B false ++ opTok Op.or :: leafToksT C false)) = _
  rw [eval_leaf_op, eval_leaf_op, eval_leaf]
  simp [opFn]

/-- C3: the two-operand forms have the standard two-valued boolean
semantics: `A & B` is conjunction, `A | B` is disjunction, `A ^ B` is
inequality of the two answers. -/
theorem c3_binary_boolean_semantics :
    ∀ (env : Leaf → Bool) (A B : Leaf) (ta tb : Bool),
      _does_impl env (leafToksT A ta ++ Tok.amp :: leafToksT B tb)
        = some (env A && env B)
      ∧ _does_impl env (leafToksT A ta ++ Tok.pipe :: leafToksT B tb)
        = some (env A || env B)
      ∧ _does_impl env (leafToksT A ta ++ Tok.caret :: leafToksT B tb)
        = some (env A != env B) := by
  intro env A B ta tb
  refine ⟨?_, ?_, ?_⟩
  · show _does_impl env (leafToksT A ta ++ opTok Op.and :: leafToksT B tb) = _
    rw [eval_leaf_op, eval_leaf]
    simp [opFn]
  · show _does_impl env (leafToksT A ta ++ opTok Op.or :: leafToksT B tb) = _
    rw [eval_leaf_op, eval_leaf]
    simp [opFn]
  · show _does_impl env (leafToksT A ta ++ opTok Op.xor :: leafToksT B tb) = _
    rw [eval_leaf_op, eval_leaf]
    simp [opFn]

/-- C4: for a single trait leaf the ONE rule answers exactly the
known-at-expansion satisfaction bit (`impls`), and the query is
well-formed (`some`) for every type — in particular for unsized ones
(`sized = false`), since neither the fallback impl (line 480) nor the
gated impl (line 487) carries a `Sized` bound. -/
theorem c4_single_trait_resolution :
    ∀ (sized : Bool) (impls : Leaf → Bool) (tr : Leaf) (tc : Bool),
      oneRule ⟨sized, impls⟩ tr = some (impls tr)
      ∧ _does_impl (envOf ⟨sized, impls⟩) (leafToksT tr tc)
          = some (impls tr) := by
  intro sized impls tr tc
  constructor
  · unfold oneRule wrapperDOES_IMPL WrapperInherentApplicable
      DoesNotImplApplicable
    cases h : impls tr <;> simp [h, TBool.value]
  · rw [eval_leaf]
    unfold envOf oneRule wrapperDOES_IMPL WrapperInherentApplicable
      DoesNotImplApplicable
    cases h : impls tr <;> simp [h, TBool.value]

/-- C5: negation is the logical complement on a trait leaf and on a
parenthesized sub-expression, and `!` binds only to the immediately
following operand: `!A & B` is `(!a) && b`. -/
theorem c5_negation_complement :
    ∀ (env : Leaf → Bool) (l : Leaf) (tc : Bool) (g R : List Tok),
      _does_impl env (Tok.bang :: leafToksT l tc) = some (!(env l))
      ∧ _does_impl env [Tok.bang, Tok.group g]
          = Option.map (fun b => !b) (_does_impl env g)
      ∧ _does_impl env (Tok.bang :: (leafToksT l tc ++ Tok.amp :: R))
          = Option.map (fun b => (!(env l)) && b) (_does_impl env R) := by
  intro env l tc g R
  refine ⟨eval_bang_leaf env l tc, eval_bang_group env g, ?_⟩
  have h := eval_bang_leaf_op env l tc Op.and R
  simpa [opFn, opTok] using h

/-- C6: a `!!` pair is absorbed as a no-op in front of any expression (so
at every grammar position, since each position restarts `_does_impl!`),
and so is any even number of leading `!` tokens. -/
theorem c6_double_negation_noop :
    ∀ (env : Leaf → Bool) (ts : List Tok) (n : Nat),
      _does_impl env (Tok.bang :: Tok.bang :: ts) = _does_impl env ts
      ∧ _does_impl env (List.replicate (2 * n) Tok.bang ++ ts)
          = _does_impl env ts :=
  fun env ts n => ⟨eval_double_bang env ts, eval_replicate_bang env n ts⟩

/-- C7: a parenthesized sub-expression is a first-class operand: `(e)`
evaluates to `e`, a parenthesized left operand of any operator is
evaluated as a sub-expression before combining with the whole right side,
and in particular `(A | B) ^ C` is `(a || b) != c`. -/
theorem c7_parenthesized_operands :
    ∀ (env : Leaf → Bool) (g : List Tok) (o : Op) (R : List Tok)
      (A B C : Leaf),
      _does_impl env [Tok.group g] = _does_impl env g
      ∧ _does_impl env (Tok.group g :: opTok o :: R)
          = (_does_impl env g).bind
              (fun a => Option.map (fun b => opFn o a b) (_does_impl env R))
      ∧ _does_impl env
            (Tok.group (leafToksT A false ++ Tok.pipe :: leafToksT B false)
              :: Tok.caret :: leafToksT C false)
          = some ((env A || env B) != env C) := by
  intro env g o R A B C
  refine ⟨eval_group env g, eval_group_op env g o R, ?_⟩
  show _does_impl env
      (Tok.group (leafToksT A false ++ opTok Op.or :: leafToksT B false)
        :: opTok Op.xor :: leafToksT C false) = _
  rw [eval_group_op, eval_leaf_op, eval_leaf, eval_leaf]
  simp [opFn]

/-- C8: every leaf shape — bare identifier, identifier with one or more
lifetime arguments and optionally generic arguments, identifier with one
or more generic arguments, each with or without a trailing comma — is a
valid operand standing alone and on the left of every operator (AND and
XOR included), and evaluates to the same single-trait answer as the leaf
alone. -/
theorem c8_leaf_shapes_everywhere :
    ∀ (env : Leaf → Bool) (s l0 t0 : String) (ls tys : List String)
      (tc : Bool) (o : Op) (R : List Tok),
      _does_impl env [Tok.ident s] = some (env ⟨s, [], []⟩)
      ∧ _does_impl env (leafToksT ⟨s, l0 :: ls, tys⟩ tc)
          = some (env ⟨s, l0 :: ls, tys⟩)
      ∧ _does_impl env (leafToksT ⟨s, [], t0 :: tys⟩ tc)
          = some (env ⟨s, [], t0 :: tys⟩)
      ∧ _does_impl env (leafToksT ⟨s, l0 :: ls, tys⟩ tc ++ opTok o :: R)
          = Option.map (fun b => opFn o (env ⟨s, l0 :: ls, tys⟩) b)
              (_does_impl env R)
      ∧ _does_impl env (leafToksT ⟨s, [], t0 :: tys⟩ tc ++ opTok o :: R)
          = Option.map (fun b => opFn o (env ⟨s, [], t0 :: tys⟩) b)
              (_does_impl env R) := by
  intro env s l0 t0 ls tys tc o R
  exact ⟨eval_leaf env ⟨s, [], []⟩ false, eval_leaf env _ tc,
    eval_leaf env _ tc, eval_leaf_op env _ tc o R, eval_leaf_op env _ tc o R⟩

/-- C9: inputs matching no grammar rule produce no result at all (`none`,
the compile-time failure): the empty expression, a trailing operator, a
lone `!`, an unsupported operand shape (a lone lifetime), and empty
parentheses.  The result type `Option Bool` itself witnesses that an
invocation either fully evaluates to one boolean or fails, with no partial
result. -/
theorem c9_malformed_inputs_rejected :
    ∀ (env : Leaf → Bool) (l : Leaf) (tc : Bool) (s : String),
      does_impl env [] = none
      ∧ does_impl env (leafToksT l tc ++ [Tok.amp]) = none
      ∧ does_impl env [Tok.bang] = none
      ∧ does_impl env [Tok.lifetime s] = none
      ∧ does_impl env [Tok.group []] = none := by
  intro env l tc s
  refine ⟨rfl, ?_, ?_, ?_, ?_⟩
  · show _does_impl env (leafToksT l tc ++ [Tok.amp]) = none
    have h := eval_leaf_op env l tc Op.and []
    rw [eval_nil] at h
    simpa using h
  · show _does_impl env [Tok.bang] = none
    rw [_does_impl_unfold]
    rw [show countBangs [Tok.bang] = 1 from rfl,
      show dropBangs [Tok.bang] = [] from rfl]
    simp [evalStep, parseLeaf_nil]
  · show _does_impl env [Tok.lifetime s] = none
    rw [_does_impl_unfold]
    rw [show countBangs [Tok.lifetime s] = 0 from rfl,
      show dropBangs [Tok.lifetime s] = [Tok.lifetime s] from rfl]
    simp [evalStep, parseLeaf]
  · show _does_impl env [Tok.group []] = none
    rw [_does_impl_unfold, countBangs_group, dropBangs_group]
    simp [evalStep, parseLeaf_group, eval_nil]

/-- C10: exactly one of the two markers is selected for a single-trait
query — `True` precisely when the bound is known to hold, `False`
otherwise — by impl-applicability fallback rather than any value-level
conditional in the source, and the `value` bridge maps each marker to
exactly the boolean it represents (a total computable function, hence
compile-time evaluable). -/
theorem c10_marker_pair_selection :
    ∀ (sized : Bool) (impls : Leaf → Bool) (tr : Leaf) (b : Bool),
      wrapperDOES_IMPL ⟨sized, impls⟩ tr
        = some (if impls tr then TBool.True else TBool.False)
      ∧ TBool.value TBool.True = true
      ∧ TBool.value TBool.False = false
      ∧ TBool.value (if b then TBool.True else TBool.False) = b
      ∧ TBool.True ≠ TBool.False := by
  intro sized impls tr b
  refine ⟨?_, rfl, rfl, ?_, by decide⟩
  · unfold wrapperDOES_IMPL WrapperInherentApplicable DoesNotImplApplicable
    cases h : impls tr <;> simp [h]
  · cases b <;> rfl

end DoesImpl
